import Mathlib

/-!
Verification development for the Portnet L2 incident-triage assistant
(AI_Assistant_Python). The Python sources are shallowly embedded:

* strings are Lean strings, processed as lists of characters
  (Python lower/strip/split are reimplemented character by character);
* SQLAlchemy rows become Lean structures; a table becomes a list of rows
  in query order; timestamps become rationals (seconds) or integers
  (days, where the code only ever looks at day differences);
* Python floats become rationals (all the constants involved are exact
  decimal literals, so the inequalities and equalities of interest are
  the same);
* the stable Python list sort becomes a stable insertion sort by key.

Each claim of the specification is settled by one theorem near the end
of the file.
-/

namespace Portnet

/-! ## Character and word utilities -/

/-- ASCII lower-casing of one character, as Python str.lower does on the
ASCII range (all source data of interest is ASCII). -/
def lowerChar (c : Char) : Char :=
  if 65 ≤ c.toNat ∧ c.toNat ≤ 90 then Char.ofNat (c.toNat + 32) else c

/-- Lower-case a whole character list. -/
def lower (s : List Char) : List Char := s.map lowerChar

/-- Is a prefix, on character lists (Python startswith helper for the
substring test below). -/
def listPrefixOfB : List Char → List Char → Bool
  | [], _ => true
  | _ :: _, [] => false
  | a :: as, b :: bs => a == b && listPrefixOfB as bs

/-- Substring containment on character lists: Python `needle in hay`.
The empty needle is contained in everything, as in Python. -/
def listInfixOf (n : List Char) : List Char → Bool
  | [] => listPrefixOfB n []
  | c :: t => listPrefixOfB n (c :: t) || listInfixOf n (c :: t).tail

/-- Maximal runs of characters satisfying keep, accumulator version.
cur holds the current run reversed. -/
def splitRunsAux (keep : Char → Bool) (cur : List Char) : List Char → List (List Char)
  | [] => if cur.isEmpty then [] else [cur.reverse]
  | c :: rest =>
    if keep c then splitRunsAux keep (c :: cur) rest
    else (if cur.isEmpty then [] else [cur.reverse]) ++ splitRunsAux keep [] rest

/-- Maximal runs of characters satisfying keep; empties dropped. -/
def splitRuns (keep : Char → Bool) (l : List Char) : List (List Char) :=
  splitRunsAux keep [] l

/-- Python str.split() with no arguments: whitespace-separated words,
empties dropped. -/
def wordsOf (l : List Char) : List (List Char) :=
  splitRuns (fun c => !c.isWhitespace) l

/-- Python str.strip(): drop leading and trailing whitespace. -/
def trimChars (l : List Char) : List Char :=
  ((l.dropWhile Char.isWhitespace).reverse.dropWhile Char.isWhitespace).reverse

/-! ## Data model (app/models/database.py)

Only the columns the scoring and retrieval code reads are embedded.
usefulness_count, view_count and priority are naturals (the schema
defaults are 0 / 0 / 1 and the code never writes negative values);
last_used is an optional day-granularity timestamp, since
calculate_relevance only reads (utcnow() - last_used).days. -/

structure TrainingData where
  incident_description : String
  category : String
  is_validated : Nat
  usefulness_count : Nat
deriving DecidableEq, Repr

structure KnowledgeBase where
  title : String
  content : String
  keywords : String
  category : String
  status : String
  priority : Nat
  view_count : Nat
  usefulness_count : Nat
  last_used : Option Int
deriving DecidableEq, Repr

/-! ## Text relevance scorers (database.py lines 263-287 and 311-357) -/

/-- TrainingData.calculate_similarity: Jaccard similarity of lower-cased
word sets, plus 0.2 if the query is a substring of the description, plus
0.1 if the category is a substring of the query, clamped to 1.0.
Empty word set of the query returns 0.0 at once. -/
def calculate_similarity (td : TrainingData) (query : String) : ℚ :=
  let ql := lower query.toList
  let dl := lower td.incident_description.toList
  let query_words := (wordsOf ql).dedup
  let description_words := (wordsOf dl).dedup
  if query_words.isEmpty then 0 else
    let inter := (query_words.filter (fun w => description_words.contains w)).length
    let unionLen :=
      query_words.length +
        (description_words.filter (fun w => !query_words.contains w)).length
    let jaccard : ℚ := if unionLen ≠ 0 then (inter : ℚ) / (unionLen : ℚ) else 0
    let phrase_bonus : ℚ := if listInfixOf ql dl then 2/10 else 0
    let category_bonus : ℚ := if listInfixOf (lower td.category.toList) ql then 1/10 else 0
    min (jaccard + phrase_bonus + category_bonus) 1

/-- The usage bonus block of calculate_relevance: only when last_used is
set and view_count is positive, at most 0.1, decaying with the days
since last use (clamped below by one day). now is the current day
number. -/
def usage_bonus (kb : KnowledgeBase) (now : Int) : ℚ :=
  match kb.last_used with
  | some lu =>
    if 0 < kb.view_count then
      min (1/10) ((kb.view_count : ℚ) * (1/100) / ((max (now - lu) 1 : Int) : ℚ))
    else 0
  | none => 0

/-- KnowledgeBase.calculate_relevance: 0.4 / 0.3 / 0.2 substring hits on
title / content / keywords, proportional word-overlap bonuses, priority
bonus, usage bonus, clamped to 1.0. now is the current day number
(datetime.utcnow of the source, at the day granularity the code uses). -/
def calculate_relevance (kb : KnowledgeBase) (query : String) (now : Int) : ℚ :=
  let ql := lower query.toList
  let content_lower := lower kb.content.toList
  let title_lower := lower kb.title.toList
  let keywords_lower := lower kb.keywords.toList
  let score1 : ℚ := if listInfixOf ql title_lower then 4/10 else 0
  let score2 := score1 + (if listInfixOf ql content_lower then 3/10 else 0)
  let score3 := score2 + (if listInfixOf ql keywords_lower then 2/10 else 0)
  let query_words := (wordsOf ql).dedup
  let title_words := wordsOf title_lower
  let content_words := wordsOf content_lower
  let title_matches := (query_words.filter (fun w => title_words.contains w)).length
  let score4 := score3 +
    (if 0 < title_matches then (2/10) * ((title_matches : ℚ) / (query_words.length : ℚ)) else 0)
  let content_matches := (query_words.filter (fun w => content_words.contains w)).length
  let score5 := score4 +
    (if 0 < content_matches then (1/10) * ((content_matches : ℚ) / (query_words.length : ℚ)) else 0)
  let score6 := score5 + (kb.priority : ℚ) * (5/100)
  let score7 := score6 + usage_bonus kb now
  min score7 1

/-! ## Stable sorting by key

Python list.sort(key=...) is stable; sort(key=..., reverse=True) keeps
elements with equal keys in input order as well. Both are modelled by a
stable insertion sort on a key into a linear order (descending sorts
use a negated key). Each incoming element is inserted after all already
placed elements whose key is less than or equal to its own. -/

section StableSort

variable {α : Type} {β : Type} [LinearOrder β]

/-- Insert x into an (ascending, key-sorted) list: strictly before the
first element with a strictly larger key, after everything else. -/
def insertK (key : α → β) (x : α) : List α → List α
  | [] => [x]
  | y :: ys => if key x < key y then x :: y :: ys else y :: insertK key x ys

/-- Stable ascending sort by key: fold the input from the left, inserting
each element into the accumulated sorted list. Later input elements with
equal keys land after earlier ones. -/
def sortByKey (key : α → β) (l : List α) : List α :=
  l.foldl (fun acc x => insertK key x acc) []

theorem insertK_perm (key : α → β) (x : α) (l : List α) :
    List.Perm (insertK key x l) (x :: l) := by
  induction l with
  | nil => simp [insertK]
  | cons y ys ih =>
    simp only [insertK]
    split
    · exact List.Perm.refl _
    · exact (List.Perm.cons y ih).trans (List.Perm.swap x y ys)

theorem foldl_insertK_perm (key : α → β) (l acc : List α) :
    List.Perm (l.foldl (fun acc x => insertK key x acc) acc) (acc ++ l) := by
  induction l generalizing acc with
  | nil => simp
  | cons x xs ih =>
    simp only [List.foldl_cons]
    refine (ih (insertK key x acc)).trans ?_
    have h1 : List.Perm (insertK key x acc ++ xs) ((x :: acc) ++ xs) :=
      (insertK_perm key x acc).append_right xs
    exact h1.trans List.perm_middle.symm

theorem sortByKey_perm (key : α → β) (l : List α) :
    List.Perm (sortByKey key l) l := by
  simpa using foldl_insertK_perm key l []

theorem insertK_sorted (key : α → β) (x : α) {l : List α}
    (h : l.Pairwise (fun a b => key a ≤ key b)) :
    (insertK key x l).Pairwise (fun a b => key a ≤ key b) := by
  induction l with
  | nil => simp [insertK]
  | cons y ys ih =>
    rcases List.pairwise_cons.mp h with ⟨hy, hys⟩
    simp only [insertK]
    split
    · rename_i hlt
      refine List.pairwise_cons.mpr ⟨?_, h⟩
      intro b hb
      rcases List.mem_cons.mp hb with rfl | hbys
      · exact le_of_lt hlt
      · exact le_trans (le_of_lt hlt) (hy b hbys)
    · rename_i hnlt
      have hyx : key y ≤ key x := le_of_not_lt hnlt
      refine List.pairwise_cons.mpr ⟨?_, ih hys⟩
      intro b hb
      have hb' := (insertK_perm key x ys).mem_iff.mp hb
      rcases List.mem_cons.mp hb' with rfl | hbys
      · exact hyx
      · exact hy b hbys

theorem foldl_insertK_sorted (key : α → β) (l acc : List α)
    (hacc : acc.Pairwise (fun a b => key a ≤ key b)) :
    (l.foldl (fun acc x => insertK key x acc) acc).Pairwise (fun a b => key a ≤ key b) := by
  induction l generalizing acc with
  | nil => simpa using hacc
  | cons x xs ih => exact ih (insertK key x acc) (insertK_sorted key x hacc)

theorem sortByKey_sorted (key : α → β) (l : List α) :
    (sortByKey key l).Pairwise (fun a b => key a ≤ key b) :=
  foldl_insertK_sorted key l [] (by simp)

theorem insertK_filter_of_ne (key : α → β) {x : α} {b : β} (hx : key x ≠ b) (l : List α) :
    (insertK key x l).filter (fun a => decide (key a = b)) =
      l.filter (fun a => decide (key a = b)) := by
  induction l with
  | nil => simp [insertK, hx]
  | cons y ys ih =>
    simp only [insertK]
    split
    · simp [List.filter_cons, hx]
    · simp only [List.filter_cons, ih]

theorem insertK_filter_of_eq (key : α → β) {x : α} {b : β} (hx : key x = b) {l : List α}
    (hl : l.Pairwise (fun a b => key a ≤ key b)) :
    (insertK key x l).filter (fun a => decide (key a = b)) =
      l.filter (fun a => decide (key a = b)) ++ [x] := by
  induction l with
  | nil => simp [insertK, hx]
  | cons y ys ih =>
    rcases List.pairwise_cons.mp hl with ⟨hy, hys⟩
    simp only [insertK]
    split
    · rename_i hlt
      have hgt : ∀ a ∈ y :: ys, b < key a := by
        intro a ha
        rcases List.mem_cons.mp ha with rfl | hays
        · exact hx ▸ hlt
        · exact lt_of_lt_of_le (hx ▸ hlt) (hy a hays)
      have h1 : (y :: ys).filter (fun a => decide (key a = b)) = [] := by
        refine List.filter_eq_nil_iff.mpr ?_
        intro a ha
        simpa using ne_of_gt (hgt a ha)
      rw [h1, List.filter_cons]
      simp [hx, h1]
    · rw [List.filter_cons, List.filter_cons, ih hys]
      by_cases hyb : key y = b <;> simp [hyb]

theorem sortByKey_stable (key : α → β) (l : List α) (b : β) :
    (sortByKey key l).filter (fun a => decide (key a = b)) =
      l.filter (fun a => decide (key a = b)) := by
  induction l using List.reverseRecOn with
  | nil => simp [sortByKey]
  | append_singleton xs x ih =>
    have hs : sortByKey key (xs ++ [x]) = insertK key x (sortByKey key xs) := by
      simp [sortByKey, List.foldl_append]
    rw [hs]
    by_cases hx : key x = b
    · rw [insertK_filter_of_eq key hx (sortByKey_sorted key xs), ih, List.filter_append]
      simp [hx]
    · rw [insertK_filter_of_ne key hx, ih, List.filter_append]
      simp [hx]

end StableSort

/-! ## Retrieval services
(knowledge_base_service.py lines 15-42, training_data_service.py 14-45)

Both services share one shape: filter the corpus to eligible rows, score
each row, keep rows with base score strictly above 0.1, add the
usefulness boost of 0.05 per mark, sort by the combined score descending
(stably), return the top limit rows. The view_count / last_used mutation
on returned knowledge rows is a store side effect outside these claims
and is not part of the selection modelled here. -/

section Retrieval

variable {α : Type}

/-- The scored candidate list in corpus order: pairs of an eligible row
whose base score exceeds 0.1 with its combined score. -/
def scoredCandidates (elig : α → Bool) (rel boost : α → ℚ) (l : List α) : List (α × ℚ) :=
  (l.filter elig).filterMap
    (fun e => if 1/10 < rel e then some (e, rel e + boost e) else none)

/-- Sort the scored candidates descending by combined score (stable) and
return the top limit rows. -/
def rankSelect (elig : α → Bool) (rel boost : α → ℚ) (limit : Nat) (l : List α) : List α :=
  ((sortByKey (fun p => -p.2) (scoredCandidates elig rel boost l)).take limit).map Prod.fst

/-- KnowledgeBaseService.find_relevant_knowledge_async. -/
def find_relevant_knowledge_async (entries : List KnowledgeBase) (query : String)
    (now : Int) (limit : Nat) : List KnowledgeBase :=
  rankSelect (fun e => e.status == "Active") (fun e => calculate_relevance e query now)
    (fun e => (e.usefulness_count : ℚ) * (5/100)) limit entries

/-- TrainingDataService.find_relevant_examples_async. -/
def find_relevant_examples_async (entries : List TrainingData) (query : String)
    (limit : Nat) : List TrainingData :=
  rankSelect (fun e => e.is_validated == 1) (fun e => calculate_similarity e query)
    (fun e => (e.usefulness_count : ℚ) * (5/100)) limit entries

theorem rankSelect_length_le (elig : α → Bool) (rel boost : α → ℚ) (limit : Nat) (l : List α) :
    (rankSelect elig rel boost limit l).length ≤ limit := by
  simp only [rankSelect, List.length_map]
  exact List.length_take_le _ _

theorem mem_scoredCandidates {elig : α → Bool} {rel boost : α → ℚ} {l : List α} {p : α × ℚ}
    (h : p ∈ scoredCandidates elig rel boost l) :
    p.1 ∈ l ∧ elig p.1 = true ∧ 1/10 < rel p.1 ∧ p.2 = rel p.1 + boost p.1 := by
  simp only [scoredCandidates, List.mem_filterMap] at h
  obtain ⟨e, he, hsome⟩ := h
  by_cases hc : 1/10 < rel e
  · rw [if_pos hc] at hsome
    cases hsome
    have hf := List.mem_filter.mp he
    exact ⟨hf.1, hf.2, hc, rfl⟩
  · rw [if_neg hc] at hsome
    cases hsome

theorem rankSelect_mem {elig : α → Bool} {rel boost : α → ℚ} {limit : Nat} {l : List α} {a : α}
    (h : a ∈ rankSelect elig rel boost limit l) :
    a ∈ l ∧ elig a = true ∧ 1/10 < rel a := by
  simp only [rankSelect, List.mem_map] at h
  obtain ⟨p, hp, rfl⟩ := h
  have hp1 : p ∈ sortByKey (fun p : α × ℚ => -p.2) (scoredCandidates elig rel boost l) :=
    List.mem_of_mem_take hp
  have hp2 : p ∈ scoredCandidates elig rel boost l :=
    (sortByKey_perm _ _).mem_iff.mp hp1
  have hm := mem_scoredCandidates hp2
  exact ⟨hm.1, hm.2.1, hm.2.2.1⟩

theorem rankSelect_sorted (elig : α → Bool) (rel boost : α → ℚ) (limit : Nat) (l : List α) :
    (rankSelect elig rel boost limit l).Pairwise
      (fun a b => rel b + boost b ≤ rel a + boost a) := by
  have hsorted := sortByKey_sorted (fun p : α × ℚ => -p.2) (scoredCandidates elig rel boost l)
  have htake : ((sortByKey (fun p : α × ℚ => -p.2) (scoredCandidates elig rel boost l)).take
      limit).Pairwise (fun p q => -p.2 ≤ -q.2) :=
    hsorted.sublist (List.take_sublist _ _)
  rw [rankSelect, List.pairwise_map]
  refine htake.imp_of_mem ?_
  intro p q hp hq hle
  have hp' := mem_scoredCandidates ((sortByKey_perm _ _).mem_iff.mp (List.mem_of_mem_take hp))
  have hq' := mem_scoredCandidates ((sortByKey_perm _ _).mem_iff.mp (List.mem_of_mem_take hq))
  have h2 : q.2 ≤ p.2 := by simpa using hle
  rw [← hp'.2.2.2, ← hq'.2.2.2]
  exact h2

theorem rankSelect_stable (elig : α → Bool) (rel boost : α → ℚ) (l : List α) (c : ℚ) :
    (sortByKey (fun p : α × ℚ => -p.2) (scoredCandidates elig rel boost l)).filter
        (fun p => decide (p.2 = c)) =
      (scoredCandidates elig rel boost l).filter (fun p => decide (p.2 = c)) := by
  have h := sortByKey_stable (fun p : α × ℚ => -p.2) (scoredCandidates elig rel boost l) (-c)
  have hfun : (fun p : α × ℚ => decide (-p.2 = -c)) = (fun p : α × ℚ => decide (p.2 = c)) := by
    funext p
    exact decide_eq_decide.mpr neg_inj
  rwa [hfun] at h

end Retrieval

/-! ## Solution fusion: deduplication and final ordering
(simple_main.py analyze_root_cause, lines 1296-1306 and 1323-1342)

A fused candidate solution is embedded with the fields the dedup and the
final sort read: the description text, the user_verified flag obtained
from feedback matching, the usefulness count, and the 1-based order
index. The dedup key is description.lower().strip(); the sort key is the
Python tuple (not user_verified, -usefulness_count), ascending, stable;
order indices are reassigned 1..N afterwards. -/

structure Solution where
  description : String
  user_verified : Bool
  usefulness_count : Nat
  order : Nat
deriving DecidableEq, Repr

/-- The dedup key of a candidate solution: lower-cased, stripped text. -/
def normalizeDescription (s : String) : List Char := trimChars (lower s.toList)

/-- Keep the first candidate for each normalized description, walking the
list with the set of already seen keys. -/
def dedupSolutions (seen : List (List Char)) : List Solution → List Solution
  | [] => []
  | s :: rest =>
    let key := normalizeDescription s.description
    if seen.contains key then dedupSolutions seen rest
    else s :: dedupSolutions (key :: seen) rest

/-- The Python sort key (not user_verified, -usefulness_count) as a
lexicographic pair: verified solutions first, then usefulness descending. -/
def solutionSortKey (s : Solution) : Lex (Nat × Int) :=
  toLex ((if s.user_verified then 0 else 1), -(s.usefulness_count : Int))

/-- The stable final sort of the fused candidate list. -/
def sortSolutions (l : List Solution) : List Solution := sortByKey solutionSortKey l

/-- Reassign order indices n, n+1, ... down the list. -/
def reassignFrom (n : Nat) : List Solution → List Solution
  | [] => []
  | s :: rest => { s with order := n } :: reassignFrom (n+1) rest

/-- The dedup / sort / reindex tail of analyze_root_cause applied to the
enriched candidate list. -/
def fuseSolutions (sols : List Solution) : List Solution :=
  reassignFrom 1 (sortSolutions (dedupSolutions [] sols))

theorem reassignFrom_countP (q : Solution → Bool)
    (hq : ∀ s n, q { s with order := n } = q s) :
    ∀ (n : Nat) (l : List Solution), (reassignFrom n l).countP q = l.countP q := by
  intro n l
  induction l generalizing n with
  | nil => rfl
  | cons s rest ih => simp [reassignFrom, List.countP_cons, ih, hq]

theorem reassignFrom_mem {r : Solution} :
    ∀ {n : Nat} {l : List Solution}, r ∈ reassignFrom n l →
      ∃ s ∈ l, ∃ m, r = { s with order := m } := by
  intro n l
  induction l generalizing n with
  | nil => intro h; cases h
  | cons s rest ih =>
    intro h
    rcases List.mem_cons.mp h with rfl | hr
    · exact ⟨s, List.mem_cons_self s rest, n, rfl⟩
    · obtain ⟨t, ht, m, hm⟩ := ih hr
      exact ⟨t, List.mem_cons_of_mem s ht, m, hm⟩

theorem reassignFrom_pairwise {R : Solution → Solution → Prop}
    (hR : ∀ s t n m, R s t → R { s with order := n } { t with order := m }) :
    ∀ {n : Nat} {l : List Solution}, l.Pairwise R → (reassignFrom n l).Pairwise R := by
  intro n l
  induction l generalizing n with
  | nil => intro _; exact List.Pairwise.nil
  | cons s rest ih =>
    intro h
    rcases List.pairwise_cons.mp h with ⟨hs, hrest⟩
    refine List.pairwise_cons.mpr ⟨?_, ih hrest⟩
    intro r hr
    obtain ⟨t, ht, m, hm⟩ := reassignFrom_mem hr
    rw [hm]
    exact hR s t n m (hs t ht)

theorem reassignFrom_map_order :
    ∀ (n : Nat) (l : List Solution),
      (reassignFrom n l).map Solution.order = List.range' n l.length := by
  intro n l
  induction l generalizing n with
  | nil => rfl
  | cons s rest ih => simp [reassignFrom, List.range'_succ, ih]

/-- The key predicate for counting solutions with a given normalized
description. -/
def hasKey (k : List Char) (r : Solution) : Bool := normalizeDescription r.description == k

theorem dedupSolutions_countP_of_seen (k : List Char) :
    ∀ (seen : List (List Char)) (sols : List Solution), seen.contains k = true →
      (dedupSolutions seen sols).countP (hasKey k) = 0 := by
  intro seen sols
  induction sols generalizing seen with
  | nil => intro _; rfl
  | cons s rest ih =>
    intro hk
    simp only [dedupSolutions]
    split
    · exact ih seen hk
    · rename_i hns
      have hsk : hasKey k s = false := by
        by_contra hcon
        have h1 : normalizeDescription s.description = k := by
          have := eq_true_of_ne_false hcon
          simpa [hasKey] using this
        rw [h1] at hns
        exact hns hk
      rw [List.countP_cons, hsk]
      simpa using ih (normalizeDescription s.description :: seen)
        (by simpa using Or.inr (List.contains_iff_exists_mem_beq.mp hk))

theorem dedupSolutions_countP_of_mem (k : List Char) :
    ∀ (seen : List (List Char)) (sols : List Solution),
      (∃ s ∈ sols, normalizeDescription s.description = k) → seen.contains k = false →
      (dedupSolutions seen sols).countP (hasKey k) = 1 := by
  intro seen sols
  induction sols generalizing seen with
  | nil => intro h _; obtain ⟨s, hs, _⟩ := h; cases hs
  | cons s rest ih =>
    intro hex hns
    simp only [dedupSolutions]
    by_cases hsk : normalizeDescription s.description = k
    · have hcontains : seen.contains (normalizeDescription s.description) = false := by
        rw [hsk]; exact hns
      rw [if_neg (by simpa using hcontains)]
      rw [List.countP_cons]
      have hhead : hasKey k s = true := by simp [hasKey, hsk]
      have htail : (dedupSolutions (normalizeDescription s.description :: seen) rest).countP
          (hasKey k) = 0 := by
        refine dedupSolutions_countP_of_seen k _ rest ?_
        simp [hsk]
      simp [hhead, htail]
    · have hex' : ∃ t ∈ rest, normalizeDescription t.description = k := by
        obtain ⟨t, ht, htk⟩ := hex
        rcases List.mem_cons.mp ht with rfl | htr
        · exact absurd htk hsk
        · exact ⟨t, htr, htk⟩
      split
      · exact ih seen hex' hns
      · rw [List.countP_cons]
        have hhead : hasKey k s = false := by simp [hasKey, hsk]
        rw [hhead]
        have : (normalizeDescription s.description :: seen).contains k = false := by
          simp only [List.contains_cons, Bool.or_eq_false_iff]
          constructor
          · simpa using fun h => hsk h.symm
          · exact hns
        simpa using ih (normalizeDescription s.description :: seen) hex' this

theorem dedupSolutions_subset :
    ∀ (seen : List (List Char)) (sols : List Solution) (r : Solution),
      r ∈ dedupSolutions seen sols → r ∈ sols := by
  intro seen sols
  induction sols generalizing seen with
  | nil => intro r h; cases h
  | cons s rest ih =>
    intro r h
    simp only [dedupSolutions] at h
    split at h
    · exact List.mem_cons_of_mem s (ih seen r h)
    · rcases List.mem_cons.mp h with rfl | hr
      · exact List.mem_cons_self r rest
      · exact List.mem_cons_of_mem s (ih _ r hr)

/-- Reading the lexicographic sort key back as the claim states it:
verified solutions precede unverified ones, and within the same
verified status usefulness counts are descending. -/
theorem solutionSortKey_le_interp {a b : Solution}
    (h : solutionSortKey a ≤ solutionSortKey b) :
    (b.user_verified = true → a.user_verified = true) ∧
      (a.user_verified = b.user_verified → b.usefulness_count ≤ a.usefulness_count) := by
  simp only [solutionSortKey] at h
  rcases (Prod.Lex.le_iff _ _).mp h with hlt | ⟨heq, hle⟩
  · constructor
    · intro hb
      simp only [hb, if_true] at hlt
      by_contra ha
      simp only [Bool.not_eq_true] at ha
      simp [ha] at hlt
    · intro hab
      rw [hab] at hlt
      exact absurd hlt (lt_irrefl _)
  · constructor
    · intro hb
      simp only [hb, if_true] at heq
      by_contra ha
      simp only [Bool.not_eq_true] at ha
      simp [ha] at heq
    · intro _
      have := neg_le_neg_iff.mp hle
      exact_mod_cast this

/-! ## Feedback ledger
(simple_main.py mark_step_useful lines 782-860,
app/api_unmark_step_useful.py lines 10-50)

The solution_feedback table is a list of rows in insertion order; a
query .first() on the identity tuple becomes List.find? on a match
predicate over the five identity columns. The side updates of
usefulness counters on the knowledge_base / training_data source tables
touch other tables and are outside the ledger state modelled here. -/

structure SolutionFeedback where
  incident_description : String
  solution_description : String
  solution_order : Int
  knowledge_base_id : Option Int
  training_data_id : Option Int
  rca_id : Option Int
  usefulness_count : Nat
  marked_at : Int
deriving DecidableEq, Repr

/-- The identity-tuple filter of both endpoints: match on description,
order and the three source foreign keys (None matches NULL). -/
def feedbackMatches (step_description : String) (step_order : Int)
    (kb td rca : Option Int) (fb : SolutionFeedback) : Bool :=
  fb.solution_description == step_description && fb.solution_order == step_order &&
    fb.knowledge_base_id == kb && fb.training_data_id == td && fb.rca_id == rca

/-- Replace the first element satisfying p by its image under f (the ORM
mutation of the row found by .first()). -/
def updateFirst {α : Type} (p : α → Bool) (f : α → α) : List α → List α
  | [] => []
  | x :: xs => if p x then f x :: xs else x :: updateFirst p f xs

/-- Delete the first element satisfying p (db.delete of the found row). -/
def removeFirst {α : Type} (p : α → Bool) : List α → List α
  | [] => []
  | x :: xs => if p x then xs else x :: removeFirst p xs

/-- The final_incident_description normalization of mark_step_useful:
the stripped text when a non-blank incident description was sent,
otherwise the literal Unknown incident. -/
def final_incident_of (incident_description : Option String) : String :=
  match incident_description with
  | some s => if (trimChars s.toList).isEmpty then ("Unknown incident")
      else ⟨trimChars s.toList⟩
  | none => ("Unknown incident")

/-- mark_step_useful: find the row for the identity tuple; increment its
count (also refreshing marked_at and, when a real incident description
was sent, the stored incident text), or insert a fresh row with count 1.
Returns the new store and the reported usefulness_count. -/
def mark_step_useful (store : List SolutionFeedback) (step_order : Int)
    (step_description : String) (kb td rca : Option Int)
    (incident_description : Option String) (now : Int) :
    List SolutionFeedback × Nat :=
  let final_incident : String := final_incident_of incident_description
  match store.find? (feedbackMatches step_description step_order kb td rca) with
  | some fb =>
    (updateFirst (feedbackMatches step_description step_order kb td rca)
      (fun r => { r with
        usefulness_count := r.usefulness_count + 1
        marked_at := now
        incident_description :=
          if final_incident ≠ "Unknown incident" then final_incident
          else r.incident_description }) store,
     fb.usefulness_count + 1)
  | none =>
    (store ++ [{ incident_description := final_incident
                 solution_description := step_description
                 solution_order := step_order
                 knowledge_base_id := kb
                 training_data_id := td
                 rca_id := rca
                 usefulness_count := 1
                 marked_at := now }], 1)

/-- unmark_step_useful: find the row for the identity tuple; absent rows
yield (store unchanged, false) — the "not found" signal; a count above 1
is decremented; otherwise the row is deleted. -/
def unmark_step_useful (store : List SolutionFeedback) (step_order : Int)
    (step_description : String) (kb td rca : Option Int) (now : Int) :
    List SolutionFeedback × Bool :=
  match store.find? (feedbackMatches step_description step_order kb td rca) with
  | none => (store, false)
  | some fb =>
    if 1 < fb.usefulness_count then
      (updateFirst (feedbackMatches step_description step_order kb td rca)
        (fun r => { r with usefulness_count := r.usefulness_count - 1, marked_at := now })
        store, true)
    else
      (removeFirst (feedbackMatches step_description step_order kb td rca) store, true)

/-- Iterate mark_step_useful n times starting from the empty store. -/
def iterMark (step_order : Int) (step_description : String) (kb td rca : Option Int)
    (incident_description : Option String) (now : Int) : Nat → List SolutionFeedback
  | 0 => []
  | n + 1 =>
    (mark_step_useful (iterMark step_order step_description kb td rca incident_description now n)
      step_order step_description kb td rca incident_description now).1

/-! ## Operational correlator
(app/services/operational_data_service.py)

Rows are embedded with the columns the three analyses read; timestamps
are rationals measured in seconds, so that total_seconds() differences
are plain subtraction. detect_container_duplicates receives its rows the
way get_container_by_number delivers them: ordered by created_at
descending (newest first). -/

structure ContainerRow where
  created_at : ℚ
  status : String
  vessel_id : Option Int
  origin_port : String
  destination_port : String
deriving DecidableEq, Repr

/-- The result fields of detect_container_duplicates that the analysis
fills in (the record list is omitted; issue_type is the empty string in
the no-duplicates result, where the Python dict has no such key).
time_delta carries the seconds difference surfaced in the
rapid_duplicate_insert root-cause message. -/
structure DupAnalysis where
  has_duplicates : Bool
  count : Nat
  identical_data : Bool
  issue_type : String
  time_delta : Option ℚ
deriving DecidableEq, Repr

/-- detect_container_duplicates (lines 85-129): zero or one row is no
duplication; otherwise compare every later row against the first on
status / vessel / origin / destination, and for identical rows check
whether the newest and oldest created_at are less than 5 seconds apart. -/
def detect_container_duplicates (containers : List ContainerRow) : DupAnalysis :=
  match containers with
  | [] => ⟨false, 0, true, "", none⟩
  | [_] => ⟨false, 1, true, "", none⟩
  | first :: rest =>
    let identical := rest.all (fun c =>
      c.status == first.status && c.vessel_id == first.vessel_id &&
        c.origin_port == first.origin_port && c.destination_port == first.destination_port)
    if identical then
      let last := (first :: rest).getLast (List.cons_ne_nil first rest)
      let time_diff := first.created_at - last.created_at
      if time_diff < 5 then
        ⟨true, rest.length + 1, true, "rapid_duplicate_insert", some time_diff⟩
      else
        ⟨true, rest.length + 1, true, "composite_pk_versioning", none⟩
    else
      ⟨true, rest.length + 1, false, "data_inconsistency", none⟩

structure VesselAdviceRow where
  vessel_advice_no : Nat
  effective_start_datetime : ℚ
  effective_end_datetime : Option ℚ
deriving DecidableEq, Repr

/-- The result fields of detect_vessel_advice_conflict. active_ids holds
the ids reported in the MULTIPLE_ACTIVE advices list; active_advice_no
the single blocking id of the VESSEL_ERR_4 result. -/
structure AdviceConflict where
  has_conflict : Bool
  error_type : Option String
  active_advice_no : Option Nat
  active_ids : List Nat
  historical_count : Option Nat
deriving DecidableEq, Repr

/-- detect_vessel_advice_conflict (lines 181-219): no rows or no active
rows (active means effective_end_datetime IS NULL) is no conflict; more
than one active row is MULTIPLE_ACTIVE with all ids; exactly one active
row is VESSEL_ERR_4 with that id. -/
def detect_vessel_advice_conflict (advices : List VesselAdviceRow) : AdviceConflict :=
  match advices with
  | [] => ⟨false, none, none, [], none⟩
  | _ :: _ =>
    let active := advices.filter (fun a => a.effective_end_datetime.isNone)
    match active with
    | [] => ⟨false, none, none, [], some advices.length⟩
    | a :: restA =>
      if restA.length + 1 > 1 then
        ⟨true, some ("MULTIPLE_ACTIVE"), none, (a :: restA).map (·.vessel_advice_no), none⟩
      else
        ⟨true, some ("VESSEL_ERR_4"), some a.vessel_advice_no, [a.vessel_advice_no], none⟩

structure APIEventRow where
  api_id : Nat
  event_ts : ℚ
  http_status : Int
deriving DecidableEq, Repr

/-- The grouping loop of detect_api_event_cascade. cur is the already
collected part of the current group, prev the previous event (the last
element of the current group, against which the next gap is measured).
A group is emitted only when it has at least two events; the final
in-progress group is emitted by the base case. -/
def cascadeGo (window : ℚ) (prev : APIEventRow) (cur : List APIEventRow) :
    List APIEventRow → List (List APIEventRow)
  | [] => if 2 ≤ cur.length + 1 then [cur ++ [prev]] else []
  | e :: rest =>
    if e.event_ts - prev.event_ts ≤ window then
      cascadeGo window e (cur ++ [prev]) rest
    else
      (if 2 ≤ cur.length + 1 then [cur ++ [prev]] else []) ++ cascadeGo window e [] rest

/-- detect_api_event_cascade (lines 317-382): keep the events with
http_status at least 400 (the query also orders them by event_ts
ascending; theorems that need that order state it as a hypothesis) and
group them greedily by consecutive gaps of at most the cascade window. -/
def detect_api_event_cascade (events : List APIEventRow) (cascade_window_seconds : ℚ) :
    List (List APIEventRow) :=
  match events.filter (fun e => 400 ≤ e.http_status) with
  | [] => []
  | e :: rest => cascadeGo cascade_window_seconds e [] rest

/-- The default cascade window of the source: 10 seconds. -/
def default_cascade_window : ℚ := 10

theorem cascadeGo_spec (window : ℚ) :
    ∀ (l : List APIEventRow) (prev : APIEventRow) (cur : List APIEventRow),
      (∀ e ∈ cur ++ [prev], 400 ≤ e.http_status) →
      (∀ e ∈ l, 400 ≤ e.http_status) →
      (cur ++ [prev]).Chain' (fun a b => b.event_ts - a.event_ts ≤ window) →
      ∀ g ∈ cascadeGo window prev cur l,
        2 ≤ g.length ∧ (∀ e ∈ g, 400 ≤ e.http_status) ∧
          g.Chain' (fun a b => b.event_ts - a.event_ts ≤ window) := by
  intro l
  induction l with
  | nil =>
    intro prev cur hcur _ hchain g hg
    simp only [cascadeGo] at hg
    split at hg
    · rename_i hlen
      rcases List.mem_singleton.mp hg with rfl
      exact ⟨by simpa using hlen, hcur, hchain⟩
    · cases hg
  | cons e rest ih =>
    intro prev cur hcur hl hchain g hg
    simp only [cascadeGo] at hg
    split at hg
    · rename_i hgap
      refine ih e (cur ++ [prev]) ?_ ?_ ?_ g hg
      · intro x hx
        rcases List.mem_append.mp hx with hx1 | hx2
        · exact hcur x hx1
        · rcases List.mem_singleton.mp hx2 with rfl
          exact hl _ (List.mem_cons_self _ _)
      · intro x hx
        exact hl x (List.mem_cons_of_mem e hx)
      · rw [List.chain'_append]
        refine ⟨hchain, List.chain'_singleton e, ?_⟩
        intro x hx y hy
        rw [List.getLast?_concat] at hx
        rcases Option.mem_some_iff.mp hx with rfl
        rcases Option.mem_some_iff.mp hy with rfl
        exact hgap
    · rename_i hgap
      rcases List.mem_append.mp hg with hg1 | hg2
      · split at hg1
        · rename_i hlen
          rcases List.mem_singleton.mp hg1 with rfl
          exact ⟨by simpa using hlen, hcur, hchain⟩
        · cases hg1
      · refine ih e [] ?_ ?_ ?_ g hg2
        · intro x hx
          rcases List.mem_singleton.mp (by simpa using hx) with rfl
          exact hl _ (List.mem_cons_self _ _)
        · intro x hx
          exact hl x (List.mem_cons_of_mem e hx)
        · simp

theorem detect_api_event_cascade_groups (events : List APIEventRow) (window : ℚ) :
    ∀ g ∈ detect_api_event_cascade events window,
      2 ≤ g.length ∧ (∀ e ∈ g, 400 ≤ e.http_status) ∧
        g.Chain' (fun a b => b.event_ts - a.event_ts ≤ window) := by
  intro g hg
  unfold detect_api_event_cascade at hg
  split at hg
  · cases hg
  · rename_i e rest heq
    refine cascadeGo_spec window rest e [] ?_ ?_ (by simp) g hg
    · intro x hx
      rcases List.mem_singleton.mp (by simpa using hx) with rfl
      have : x ∈ events.filter (fun e => 400 ≤ e.http_status) := by
        rw [heq]; exact List.mem_cons_self x rest
      simpa using List.of_mem_filter this
    · intro x hx
      have : x ∈ events.filter (fun e => 400 ≤ e.http_status) := by
        rw [heq]; exact List.mem_cons_of_mem e hx
      simpa using List.of_mem_filter this

/-- The last event of prev followed by a list: the element the loop just
appended to the current cascade, i.e. the one the next gap is measured
against. -/
def lastEvent (prev : APIEventRow) : List APIEventRow → APIEventRow
  | [] => prev
  | e :: rest => lastEvent e rest

theorem getLast?_eq_lastEvent :
    ∀ (l : List APIEventRow) (prev : APIEventRow),
      (prev :: l).getLast? = some (lastEvent prev l) := by
  intro l
  induction l with
  | nil => intro prev; rfl
  | cons e rest ih =>
    intro prev
    rw [List.getLast?_cons_cons, ih e]
    rfl

/-- When the whole remaining input chains onto the current group with
gaps within the window, the loop ends with exactly that one group, and
the base case emits it precisely when it has at least two events: the
end-of-list flush. -/
theorem cascadeGo_chain_all (window : ℚ) :
    ∀ (l : List APIEventRow) (prev : APIEventRow) (cur : List APIEventRow),
      (cur ++ prev :: l).Chain' (fun a b => b.event_ts - a.event_ts ≤ window) →
      cascadeGo window prev cur l =
        if 2 ≤ (cur ++ prev :: l).length then [cur ++ prev :: l] else [] := by
  intro l
  induction l with
  | nil =>
    intro prev cur _
    simp [cascadeGo]
  | cons e rest ih =>
    intro prev cur hchain
    have h2 : List.Chain' (fun a b => b.event_ts - a.event_ts ≤ window) (prev :: e :: rest) :=
      (List.chain'_append.mp hchain).2.1
    have hpair : e.event_ts - prev.event_ts ≤ window := (List.chain'_cons.mp h2).1
    simp only [cascadeGo]
    rw [if_pos hpair, ih e (cur ++ [prev]) (by simpa using hchain)]
    simp

/-- Crossing a gap larger than the window closes the current group
exactly as the base case would: the output of the loop on front ++ rest
with a break between them is the output on front (its trailing group
flushed) followed by the output of a fresh run on rest. -/
theorem cascadeGo_break (window : ℚ) :
    ∀ (front : List APIEventRow) (prev : APIEventRow) (cur : List APIEventRow)
      (t : APIEventRow) (ts : List APIEventRow),
      window < t.event_ts - (lastEvent prev front).event_ts →
      cascadeGo window prev cur (front ++ t :: ts) =
        cascadeGo window prev cur front ++ cascadeGo window t [] ts := by
  intro front
  induction front with
  | nil =>
    intro prev cur t ts hj
    have hgap : ¬ (t.event_ts - prev.event_ts ≤ window) := not_le.mpr hj
    simp only [List.nil_append, cascadeGo]
    rw [if_neg hgap]
  | cons f fs ih =>
    intro prev cur t ts hj
    simp only [List.cons_append, cascadeGo, List.append_eq]
    by_cases hgap : f.event_ts - prev.event_ts ≤ window
    · rw [if_pos hgap, if_pos hgap, ih f (cur ++ [prev]) t ts hj]
    · rw [if_neg hgap, if_neg hgap, ih f [] t ts hj, List.append_assoc]

theorem detect_api_event_cascade_eq (events : List APIEventRow) (window : ℚ)
    (e : APIEventRow) (rest : List APIEventRow)
    (h : events.filter (fun e => 400 ≤ e.http_status) = e :: rest) :
    detect_api_event_cascade events window = cascadeGo window e [] rest := by
  unfold detect_api_event_cascade
  rw [h]

/-- The trailing-flush property of the claim: when the filtered error
events split into a front part and a final in-progress group — a
within-window chain of at least two events, separated from the front by
a gap larger than the window — that final group is emitted, as the last
cascade of the output. -/
theorem detect_api_event_cascade_trailing (events : List APIEventRow) (window : ℚ)
    (front trailing : List APIEventRow)
    (hsplit : events.filter (fun e => 400 ≤ e.http_status) = front ++ trailing)
    (hlen : 2 ≤ trailing.length)
    (hchain : trailing.Chain' (fun a b => b.event_ts - a.event_ts ≤ window))
    (hbreak : ∀ a b, front.getLast? = some a → trailing.head? = some b →
      window < b.event_ts - a.event_ts) :
    ∃ gs, detect_api_event_cascade events window = gs ++ [trailing] := by
  match trailing, hlen, hchain, hbreak, hsplit with
  | t :: ts, hlen, hchain, hbreak, hsplit =>
    have htail : cascadeGo window t [] ts = [t :: ts] := by
      rw [cascadeGo_chain_all window ts t [] (by simpa using hchain)]
      rw [if_pos (by simpa using hlen)]
      rfl
    cases front with
    | nil =>
      refine ⟨[], ?_⟩
      rw [detect_api_event_cascade_eq events window t ts (by simpa using hsplit)]
      simpa using htail
    | cons f fr =>
      refine ⟨cascadeGo window f [] fr, ?_⟩
      rw [detect_api_event_cascade_eq events window f (fr ++ t :: ts) (by simpa using hsplit)]
      have hj : window < t.event_ts - (lastEvent f fr).event_ts := by
        refine hbreak (lastEvent f fr) t ?_ rfl
        exact getLast?_eq_lastEvent fr f
      rw [cascadeGo_break window fr f [] t ts hj, htail]

/-! ## Error-fingerprint extractor
(app/services/incident_analyzer.py, extract_error_type, lines 14-77)

The ordered pattern list uses a small regular-expression fragment:
literals, the dot (any character except a newline, as in Python re
without DOTALL), dot-star gaps, character classes, one-or-more word or
whitespace characters, an optional space, and alternation. A Brzozowski
derivative matcher gives re.search semantics: the pattern may match
starting at any position. -/

/-- Regular expressions over characters. cls carries the character
predicate of a class such as a word character or a quote. -/
inductive RE : Type where
  | emp : RE
  | eps : RE
  | cls : (Char → Bool) → RE
  | alt : RE → RE → RE
  | seq : RE → RE → RE
  | star : RE → RE

/-- Does the expression accept the empty string? -/
def RE.nullable : RE → Bool
  | .emp => false
  | .eps => true
  | .cls _ => false
  | .alt a b => a.nullable || b.nullable
  | .seq a b => a.nullable && b.nullable
  | .star _ => true

/-- Smart sequence constructor (keeps derivative terms small). -/
def RE.mkSeq : RE → RE → RE
  | .emp, _ => .emp
  | _, .emp => .emp
  | .eps, b => b
  | a, .eps => a
  | a, b => .seq a b

/-- Smart alternation constructor. -/
def RE.mkAlt : RE → RE → RE
  | .emp, b => b
  | a, .emp => a
  | a, b => .alt a b

/-- Brzozowski derivative with respect to one character. -/
def RE.deriv : RE → Char → RE
  | .emp, _ => .emp
  | .eps, _ => .emp
  | .cls p, c => if p c then .eps else .emp
  | .alt a b, c => RE.mkAlt (a.deriv c) (b.deriv c)
  | .seq a b, c =>
    if a.nullable then RE.mkAlt (RE.mkSeq (a.deriv c) b) (b.deriv c)
    else RE.mkSeq (a.deriv c) b
  | .star r, c => RE.mkSeq (r.deriv c) (.star r)

/-- Does the expression match some prefix of the character list? -/
def RE.matchesPrefix (r : RE) : List Char → Bool
  | [] => r.nullable
  | c :: rest => r.nullable || (r.deriv c).matchesPrefix rest

/-- Python re.search: does the expression match somewhere in the list? -/
def reSearch (r : RE) : List Char → Bool
  | [] => r.matchesPrefix []
  | c :: rest => r.matchesPrefix (c :: rest) || reSearch r rest

/-- Literal string pattern. -/
def rlit (s : String) : RE :=
  s.toList.foldr (fun c r => RE.seq (RE.cls (fun x => x == c)) r) RE.eps

/-- Python dot: any character but a newline. -/
def rdot : RE := RE.cls (fun c => !(c == Char.ofNat 10))

/-- A dot-star gap. -/
def rgap : RE := RE.star rdot

/-- Sequence of a list of patterns. -/
def rseq (l : List RE) : RE := l.foldr RE.seq RE.eps

/-- One or more repetitions. -/
def rplus (r : RE) : RE := RE.seq r (RE.star r)

/-- A word character of the regex class backslash-w (ASCII letters,
digits, underscore). -/
def rwchar : RE := RE.cls (fun c => c.isAlphanum || c == Char.ofNat 95)

/-- One or more word characters. -/
def rwplus : RE := rplus rwchar

/-- One or more whitespace characters. -/
def rsplus : RE := rplus (RE.cls Char.isWhitespace)

/-- A single or double quote. -/
def rquote : RE := RE.cls (fun c => c == Char.ofNat 39 || c == Char.ofNat 34)

/-- An optional literal space. -/
def roptSpace : RE := RE.alt (rlit (" ")) RE.eps

/-- The ordered pattern list of extract_error_type, in source order. -/
def errorPatterns : List (RE × String) :=
  [ (rseq [rlit ("unexpected qualifier"), rgap, rquote, rwplus, rquote, rsplus,
      rlit ("in"), rsplus, rwplus, rsplus, rlit ("segment")], "edifact_unexpected_qualifier"),
    (RE.alt (rseq [rlit ("coarri"), rgap, rlit ("container"), rgap, rlit ("translation")])
      (rseq [rlit ("container"), rgap, rlit ("coarri"), rgap, rlit ("error")]),
      "coarri_container_error"),
    (RE.alt (rseq [rlit ("edifact"), rgap, rlit ("parse")])
      (RE.alt (rseq [rlit ("edifact"), rgap, rlit ("format")])
        (rseq [rlit ("edifact"), rgap, rlit ("message")])), "edifact_parsing_error"),
    (RE.alt (rseq [rlit ("codeco"), rgap, rlit ("error")])
      (rseq [rlit ("codeco"), rgap, rlit ("reject")]), "codeco_error"),
    (RE.alt (rseq [rlit ("coprar"), rgap, rlit ("error")])
      (rseq [rlit ("coprar"), rgap, rlit ("reject")]), "coprar_error"),
    (RE.alt (rseq [rlit ("baplie"), rgap, rlit ("error")])
      (rseq [rlit ("baplie"), rgap, rlit ("reject")]), "baplie_error"),
    (RE.alt (rseq [rlit ("edi"), rgap, rlit ("message"), rgap, rlit ("stuck")])
      (rseq [rlit ("edi"), rgap, rlit ("stuck"), rgap, rlit ("error")]), "edi_message_stuck"),
    (RE.alt (rseq [rlit ("segment"), rgap, rlit ("error")])
      (RE.alt (rseq [rlit ("segment"), rgap, rlit ("reject")])
        (rseq [rlit ("segment"), rgap, rlit ("invalid")])), "edi_segment_error"),
    (rseq [rlit ("time"), roptSpace, rlit ("zone drift")], "timezone_drift"),
    (RE.alt (rseq [rlit ("dlq"), rgap, rlit ("spike")])
      (RE.alt (rseq [rlit ("spike"), rgap, rlit ("dlq")])
        (rlit ("dlq messages"))), "dlq_spike"),
    (RE.alt (rlit ("vessel_err")) (rlit ("vessel error")), "vessel_err"),
    (RE.alt (rseq [rlit ("duplicate"), rgap, rlit ("container")])
      (rseq [rlit ("container"), rgap, rlit ("duplication")]), "container_duplication"),
    (RE.alt (rseq [rlit ("cntr"), rgap, rlit ("duplicate")])
      (rseq [rlit ("cntr"), rgap, rlit ("error")]), "container_reference_error"),
    (RE.alt (rseq [rlit ("booking"), rgap, rlit ("duplicate")])
      (rseq [rlit ("booking"), rgap, rlit ("conflict")]), "booking_conflict"),
    (rlit ("timeout"), "timeout"),
    (rlit ("deadlock"), "deadlock"),
    (rlit ("connection refused"), "connection_refused"),
    (rlit ("invalid format"), "invalid_format"),
    (rlit ("missing field"), "missing_field"),
    (RE.alt (rseq [rlit ("auth"), rgap, rlit ("fail")])
      (rlit ("authentication failed")), "auth_failed"),
    (rlit ("permission denied"), "permission_denied"),
    (rlit ("file not found"), "file_not_found"),
    (rlit ("memory leak"), "memory_leak"),
    (rlit ("high cpu"), "high_cpu"),
    (rlit ("disk full"), "disk_full"),
    (rlit ("network unreachable"), "network_unreachable"),
    (rlit ("service unavailable"), "service_unavailable"),
    (rlit ("unknown error"), "unknown_error") ]

/-- Join word tokens with underscores (the join of the fallback). -/
def joinUnderscore : List (List Char) → List Char
  | [] => []
  | [w] => w
  | w :: rest => w ++ Char.ofNat 95 :: joinUnderscore rest

/-- The word-character test of the findall fallback. -/
def isWordChar (c : Char) : Bool := c.isAlphanum || c == Char.ofNat 95

/-- extract_error_type: lower-case the description, return the tag of the
first matching pattern; otherwise join the first two word tokens with an
underscore; otherwise the sentinel unknown_error. -/
def extract_error_type (description : String) : String :=
  let desc_lower := lower description.toList
  match errorPatterns.find? (fun p => reSearch p.1 desc_lower) with
  | some p => p.2
  | none =>
    match splitRuns isWordChar desc_lower with
    | [] => ("unknown_error")
    | w :: ws => ⟨joinUnderscore ((w :: ws).take 2)⟩

/-! ## Root-cause hypothesis builder
(simple_main.py analyze_root_cause, lines 1426-1527)

A hypothesis is embedded by its confidence and a source tag (the prose
description, evidence and contributing-factor strings are presentation
built from the findings). The base list is built first: the
similarity-based hypothesis at confidence 0.85 when similar incidents
exist, then the log-derived hypotheses, then the zero-confidence
placeholder if nothing else exists. Afterwards every qualifying
operational finding inserts its hypothesis at position 0: first the
container loop (0.95), then the vessel loop (0.98), then the EDI loop
(0.90). -/

structure Hypothesis where
  confidence : ℚ
  source : String
deriving DecidableEq, Repr

/-- The similarity-based hypothesis built from the most similar incident. -/
def similarity_hypothesis : Hypothesis := ⟨85/100, "similar_incident"⟩

/-- The generic placeholder when no hypothesis could be produced. -/
def placeholder_hypothesis : Hypothesis := ⟨0, "insufficient_data"⟩

/-- The container-duplication hypothesis. -/
def container_hypothesis : Hypothesis := ⟨95/100, "container_duplication"⟩

/-- The vessel-advisory-conflict hypothesis. -/
def vessel_hypothesis : Hypothesis := ⟨98/100, "vessel_advice_conflict"⟩

/-- The EDI-error hypothesis. -/
def edi_hypothesis : Hypothesis := ⟨90/100, "edi_error"⟩

/-- The hypothesis list before operational enhancement: similarity
hypothesis if similar incidents were found, log-derived hypotheses, and
the placeholder when the list would otherwise be empty. -/
def base_hypotheses (has_similar : Bool) (log_hyps : List Hypothesis) : List Hypothesis :=
  let hyps := (if has_similar then [similarity_hypothesis] else []) ++ log_hyps
  if hyps.isEmpty then [placeholder_hypothesis] else hyps

/-- The operational enhancement: for each container finding with
duplicates, insert the 0.95 hypothesis at position 0; then for each
vessel finding with a VESSEL_ERR_4 conflict, insert the 0.98 hypothesis
at position 0; then for each EDI finding with a root cause, insert the
0.90 hypothesis at position 0. -/
def add_operational_hypotheses (containers : List DupAnalysis)
    (vessels : List AdviceConflict) (edi_root_causes : List (Option String))
    (hyps : List Hypothesis) : List Hypothesis :=
  let h1 := containers.foldl
    (fun acc c => if c.has_duplicates then container_hypothesis :: acc else acc) hyps
  let h2 := vessels.foldl
    (fun acc v =>
      if v.has_conflict && v.error_type == some ("VESSEL_ERR_4") then
        vessel_hypothesis :: acc
      else acc) h1
  edi_root_causes.foldl
    (fun acc e => if e.isSome then edi_hypothesis :: acc else acc) h2

/-- The hypothesis list produced by analyze_root_cause, as a function of
which findings are present. -/
def analyze_root_cause_hypotheses (has_similar : Bool) (log_hyps : List Hypothesis)
    (containers : List DupAnalysis) (vessels : List AdviceConflict)
    (edi_root_causes : List (Option String)) : List Hypothesis :=
  add_operational_hypotheses containers vessels edi_root_causes
    (base_hypotheses has_similar log_hyps)

theorem foldl_cons_if_replicate {α : Type} (p : α → Bool) (h : Hypothesis) :
    ∀ (l : List α) (acc : List Hypothesis),
      l.foldl (fun acc x => if p x then h :: acc else acc) acc =
        List.replicate (l.countP p) h ++ acc := by
  intro l
  induction l with
  | nil => intro acc; simp
  | cons x xs ih =>
    intro acc
    simp only [List.foldl_cons, List.countP_cons]
    by_cases hx : p x
    · rw [if_pos hx, ih (h :: acc), hx]
      simp [List.replicate_succ']
    · rw [if_neg hx, ih acc]
      simp [hx]

/-- Closed form of the operational enhancement: the EDI hypotheses come
first, then the vessel ones, then the container ones, in front of the
base list. -/
theorem add_operational_hypotheses_eq (containers : List DupAnalysis)
    (vessels : List AdviceConflict) (edi_root_causes : List (Option String))
    (hyps : List Hypothesis) :
    add_operational_hypotheses containers vessels edi_root_causes hyps =
      List.replicate (edi_root_causes.countP (fun e => e.isSome)) edi_hypothesis ++
        List.replicate
          (vessels.countP (fun v => v.has_conflict && v.error_type == some ("VESSEL_ERR_4")))
          vessel_hypothesis ++
        List.replicate (containers.countP (fun c => c.has_duplicates)) container_hypothesis ++
        hyps := by
  unfold add_operational_hypotheses
  rw [foldl_cons_if_replicate, foldl_cons_if_replicate, foldl_cons_if_replicate]
  simp [List.append_assoc]

/-! ## Score-bound lemmas -/

theorem listInfixOf_nil (h : List Char) : listInfixOf [] h = true := by
  cases h <;> simp [listInfixOf, listPrefixOfB]

theorem usage_bonus_nonneg (kb : KnowledgeBase) (now : Int) : 0 ≤ usage_bonus kb now := by
  unfold usage_bonus
  cases kb.last_used with
  | none => exact le_refl 0
  | some lu =>
    simp only
    split
    · have hpos : (0 : ℚ) < ((max (now - lu) 1 : Int) : ℚ) := by
        exact_mod_cast lt_of_lt_of_le zero_lt_one (le_max_right (now - lu) 1)
      refine le_min (by norm_num) (div_nonneg (by positivity) hpos.le)
    · exact le_refl 0

theorem calculate_similarity_nonneg (td : TrainingData) (q : String) :
    0 ≤ calculate_similarity td q := by
  simp only [calculate_similarity]
  split
  · exact le_refl 0
  · refine le_min ?_ (by norm_num)
    refine add_nonneg (add_nonneg ?_ ?_) ?_
    · split
      · positivity
      · exact le_refl 0
    · split <;> norm_num
    · split <;> norm_num

theorem calculate_similarity_le_one (td : TrainingData) (q : String) :
    calculate_similarity td q ≤ 1 := by
  simp only [calculate_similarity]
  split
  · norm_num
  · exact min_le_right _ _

theorem calculate_similarity_empty (td : TrainingData) :
    calculate_similarity td "" = 0 := by
  rfl

theorem calculate_relevance_nonneg (kb : KnowledgeBase) (q : String) (now : Int) :
    0 ≤ calculate_relevance kb q now := by
  simp only [calculate_relevance]
  refine le_min ?_ (by norm_num)
  have husage := usage_bonus_nonneg kb now
  have h6 : (0 : ℚ) ≤ (kb.priority : ℚ) * (5/100) := by positivity
  refine add_nonneg (add_nonneg ?_ h6) husage
  refine add_nonneg (add_nonneg (add_nonneg (add_nonneg ?_ ?_) ?_) ?_) ?_
  · split <;> norm_num
  · split <;> norm_num
  · split <;> norm_num
  · split
    · positivity
    · exact le_refl 0
  · split
    · positivity
    · exact le_refl 0

theorem calculate_relevance_le_one (kb : KnowledgeBase) (q : String) (now : Int) :
    calculate_relevance kb q now ≤ 1 := by
  simp only [calculate_relevance]
  exact min_le_right _ _

theorem calculate_relevance_empty_ge (kb : KnowledgeBase) (now : Int) :
    9/10 ≤ calculate_relevance kb "" now := by
  simp only [calculate_relevance]
  have hq : lower (String.toList "") = ([] : List Char) := rfl
  rw [hq]
  rw [listInfixOf_nil, listInfixOf_nil, listInfixOf_nil]
  have hw : (wordsOf ([] : List Char)).dedup = [] := rfl
  rw [hw]
  simp only [List.filter_nil, List.length_nil, lt_irrefl, if_true, if_false]
  refine le_min ?_ (by norm_num)
  have husage := usage_bonus_nonneg kb now
  have h6 : (0 : ℚ) ≤ (kb.priority : ℚ) * (5/100) := by positivity
  norm_num
  linarith

/-! ## Claim C1 -/

/-- A concrete knowledge entry for the C1 counterexample. -/
def kbC1 : KnowledgeBase :=
  { title := "VESSEL_ERR_4 advisory conflict"
    content := "Expire the existing advice before creating a new one."
    keywords := "vessel, advice"
    category := "Vessel"
    status := "Active"
    priority := 1
    view_count := 0
    usefulness_count := 0
    last_used := none }

/-- C1 counterexample: the knowledge relevance of the empty query is not
0.0 — the empty string is a Python substring of every title, content and
keyword string, so the empty query scores 0.4 + 0.3 + 0.2 plus the
priority bonus: 0.95 on this concrete entry. -/
theorem C1_counterexample :
    calculate_relevance kbC1 "" 0 = 19/20 ∧ ¬ calculate_relevance kbC1 "" 0 = 0 := by
  have hval : calculate_relevance kbC1 "" 0 = 19/20 := by
    simp only [calculate_relevance]
    rw [show lower (String.toList "") = ([] : List Char) from rfl]
    rw [listInfixOf_nil, listInfixOf_nil, listInfixOf_nil]
    rw [show (wordsOf ([] : List Char)).dedup = [] from rfl]
    simp only [List.filter_nil, List.length_nil, lt_irrefl, if_true, if_false]
    rw [show kbC1.priority = 1 from rfl, show usage_bonus kbC1 0 = 0 from rfl]
    rw [min_eq_left (by norm_num)]
    norm_num
  exact ⟨hval, by rw [hval]; norm_num⟩

/-- C1 (amended): for every query both scores are in [0.0, 1.0]; the
case similarity of the empty query is 0.0; but the knowledge relevance
of the empty query is at least 0.9 (all three substring checks match
the empty string), hence never 0.0. -/
theorem C1_amended (q : String) (td : TrainingData) (kb : KnowledgeBase) (now : Int) :
    (0 ≤ calculate_similarity td q ∧ calculate_similarity td q ≤ 1) ∧
      (0 ≤ calculate_relevance kb q now ∧ calculate_relevance kb q now ≤ 1) ∧
      (q = "" → calculate_similarity td q = 0 ∧ 9/10 ≤ calculate_relevance kb q now) := by
  refine ⟨⟨calculate_similarity_nonneg td q, calculate_similarity_le_one td q⟩,
    ⟨calculate_relevance_nonneg kb q now, calculate_relevance_le_one kb q now⟩, ?_⟩
  rintro rfl
  exact ⟨calculate_similarity_empty td, calculate_relevance_empty_ge kb now⟩

/-- Witness for C1_amended at a concrete entry, case and the empty
query. -/
theorem C1_amended_witness :
    calculate_similarity ⟨"duplicate container", "Container", 1, 0⟩ "" = 0 ∧
      9/10 ≤ calculate_relevance kbC1 "" 0 :=
  (C1_amended "" ⟨"duplicate container", "Container", 1, 0⟩ kbC1 0).2.2 rfl

/-! ## Claim C10 -/

/-- C10: a training case whose category is the empty string (the schema
default) gets the +0.1 category bonus for every query, because the empty
string is a substring of every query; so any query with at least one
word scores at least 0.1, and a query sharing no words and no phrase
with the description scores exactly 0.1 — not strictly above the 0.1
retrieval threshold, so such a case is still filtered out. -/
theorem C10_empty_category_threshold (td : TrainingData) (q : String)
    (hcat : td.category = "")
    (hwords : (wordsOf (lower q.toList)).dedup ≠ []) :
    1/10 ≤ calculate_similarity td q ∧
      ((∀ w ∈ (wordsOf (lower q.toList)).dedup,
          ¬ (wordsOf (lower td.incident_description.toList)).dedup.contains w = true) →
        listInfixOf (lower q.toList) (lower td.incident_description.toList) = false →
        calculate_similarity td q = 1/10 ∧
          find_relevant_examples_async [td] q 5 = []) := by
  have hcat' : lower td.category.toList = [] := by rw [hcat]; rfl
  constructor
  · simp only [calculate_similarity, hcat', listInfixOf_nil]
    rw [if_neg (by simpa using hwords)]
    refine le_min ?_ (by norm_num)
    have hj : (0 : ℚ) ≤
        (if (wordsOf (lower q.toList)).dedup.length +
            ((wordsOf (lower td.incident_description.toList)).dedup.filter
              (fun w => !(wordsOf (lower q.toList)).dedup.contains w)).length ≠ 0 then
          ((((wordsOf (lower q.toList)).dedup.filter
              (fun w => (wordsOf (lower td.incident_description.toList)).dedup.contains w)).length : ℚ) /
            (((wordsOf (lower q.toList)).dedup.length +
              ((wordsOf (lower td.incident_description.toList)).dedup.filter
                (fun w => !(wordsOf (lower q.toList)).dedup.contains w)).length : Nat) : ℚ))
        else 0) := by
      split
      · positivity
      · exact le_refl 0
    have hp : (0 : ℚ) ≤
        (if listInfixOf (lower q.toList) (lower td.incident_description.toList) = true
          then 2/10 else 0) := by
      split <;> norm_num
    simp only [if_true]
    linarith
  · intro hnoword hnophrase
    have hsim : calculate_similarity td q = 1/10 := by
      simp only [calculate_similarity, hcat', listInfixOf_nil]
      rw [if_neg (by simpa using hwords)]
      have hfilter : ((wordsOf (lower q.toList)).dedup.filter
          (fun w => (wordsOf (lower td.incident_description.toList)).dedup.contains w)) = [] := by
        refine List.filter_eq_nil_iff.mpr ?_
        intro w hw
        simpa using hnoword w hw
      rw [hfilter, hnophrase]
      have hlen : ((wordsOf (lower q.toList)).dedup.length : ℚ) ≠ 0 := by
        have : (wordsOf (lower q.toList)).dedup.length ≠ 0 := by
          simpa [List.length_eq_zero] using hwords
        exact_mod_cast this
      split
      · simp
        norm_num
      · simp
        norm_num
    refine ⟨hsim, ?_⟩
    have hcond : ¬ ((10 : ℚ)⁻¹ < calculate_similarity td q) := by
      rw [hsim]
      norm_num
    cases hv : (td.is_validated == 1)
    · simp [find_relevant_examples_async, rankSelect, scoredCandidates, hv, sortByKey]
    · simp [find_relevant_examples_async, rankSelect, scoredCandidates, hv, hcond, sortByKey]

/-- Witness for C10 on a validated case with the default empty category,
description abc and query xyz: similarity is exactly 0.1 and retrieval
returns nothing. -/
theorem C10_witness :
    calculate_similarity ⟨"abc", "", 1, 0⟩ "xyz" = 1/10 ∧
      find_relevant_examples_async [⟨"abc", "", 1, 0⟩] "xyz" 5 = [] :=
  (C10_empty_category_threshold ⟨"abc", "", 1, 0⟩ "xyz" rfl (by decide)).2
    (by decide) (by decide)

/-! ## Claim C2 -/

/-- C2: both retrieval services return at most limit documents, only
eligible documents with base relevance strictly above 0.1, in descending
order of combined score (base + usefulness times 0.05); and the
descending sort is stable: for every combined-score value, the sorted
scored-candidate list restricted to that value equals the corpus-order
scored-candidate list restricted to it. -/
theorem C2_retrieval_contract (kbs : List KnowledgeBase) (tds : List TrainingData)
    (query : String) (now : Int) (limit : Nat) :
    ((find_relevant_knowledge_async kbs query now limit).length ≤ limit ∧
      (∀ e ∈ find_relevant_knowledge_async kbs query now limit,
        e.status = "Active" ∧ 1/10 < calculate_relevance e query now) ∧
      (find_relevant_knowledge_async kbs query now limit).Pairwise
        (fun a b =>
          calculate_relevance b query now + (b.usefulness_count : ℚ) * (5/100) ≤
            calculate_relevance a query now + (a.usefulness_count : ℚ) * (5/100)) ∧
      (∀ c : ℚ,
        (sortByKey (fun p : KnowledgeBase × ℚ => -p.2)
            (scoredCandidates (fun e => e.status == "Active")
              (fun e => calculate_relevance e query now)
              (fun e => (e.usefulness_count : ℚ) * (5/100)) kbs)).filter
            (fun p => decide (p.2 = c)) =
          (scoredCandidates (fun e => e.status == "Active")
            (fun e => calculate_relevance e query now)
            (fun e => (e.usefulness_count : ℚ) * (5/100)) kbs).filter
            (fun p => decide (p.2 = c)))) ∧
    ((find_relevant_examples_async tds query limit).length ≤ limit ∧
      (∀ e ∈ find_relevant_examples_async tds query limit,
        e.is_validated = 1 ∧ 1/10 < calculate_similarity e query) ∧
      (find_relevant_examples_async tds query limit).Pairwise
        (fun a b =>
          calculate_similarity b query + (b.usefulness_count : ℚ) * (5/100) ≤
            calculate_similarity a query + (a.usefulness_count : ℚ) * (5/100)) ∧
      (∀ c : ℚ,
        (sortByKey (fun p : TrainingData × ℚ => -p.2)
            (scoredCandidates (fun e => e.is_validated == 1)
              (fun e => calculate_similarity e query)
              (fun e => (e.usefulness_count : ℚ) * (5/100)) tds)).filter
            (fun p => decide (p.2 = c)) =
          (scoredCandidates (fun e => e.is_validated == 1)
            (fun e => calculate_similarity e query)
            (fun e => (e.usefulness_count : ℚ) * (5/100)) tds).filter
            (fun p => decide (p.2 = c)))) := by
  refine ⟨⟨rankSelect_length_le _ _ _ _ _, ?_, rankSelect_sorted _ _ _ _ _, ?_⟩,
    ⟨rankSelect_length_le _ _ _ _ _, ?_, rankSelect_sorted _ _ _ _ _, ?_⟩⟩
  · intro e he
    have hm := rankSelect_mem he
    refine ⟨?_, hm.2.2⟩
    have := hm.2.1
    simpa using this
  · intro c
    exact rankSelect_stable _ _ _ _ c
  · intro e he
    have hm := rankSelect_mem he
    refine ⟨?_, hm.2.2⟩
    have := hm.2.1
    simpa using this
  · intro c
    exact rankSelect_stable _ _ _ _ c

/-- Witness for C2 at a concrete one-entry corpus and limit 1. -/
theorem C2_witness :
    (find_relevant_knowledge_async [kbC1] "vessel" 0 1).length ≤ 1 ∧
      (find_relevant_examples_async [⟨"abc", "", 1, 0⟩] "xyz" 3).length ≤ 3 :=
  ⟨(C2_retrieval_contract [kbC1] [] "vessel" 0 1).1.1,
    (C2_retrieval_contract [kbC1] [⟨"abc", "", 1, 0⟩] "xyz" 0 3).2.1⟩

/-! ## Claim C3 -/

theorem reassignFrom_length :
    ∀ (n : Nat) (l : List Solution), (reassignFrom n l).length = l.length := by
  intro n l
  induction l generalizing n with
  | nil => rfl
  | cons s rest ih => simp [reassignFrom, ih]

/-- C3: in the fused output every normalized description (lower-cased,
stripped) occurs exactly once, so two candidates whose texts differ only
by case or leading/trailing whitespace leave exactly one result; every
output row is an input row with only its order index rewritten; the
output is ordered verified-first then by usefulness count descending;
and order indices are reassigned 1..N after sorting. -/
theorem C3_fusion_dedup_and_order (sols : List Solution) :
    (∀ s ∈ sols,
      (fuseSolutions sols).countP (hasKey (normalizeDescription s.description)) = 1) ∧
    (∀ r ∈ fuseSolutions sols, ∃ s ∈ sols, ∃ m, r = { s with order := m }) ∧
    (fuseSolutions sols).Pairwise
      (fun a b => (b.user_verified = true → a.user_verified = true) ∧
        (a.user_verified = b.user_verified → b.usefulness_count ≤ a.usefulness_count)) ∧
    (fuseSolutions sols).map Solution.order = List.range' 1 (fuseSolutions sols).length := by
  refine ⟨?_, ?_, ?_, ?_⟩
  · intro s hs
    unfold fuseSolutions
    rw [reassignFrom_countP (hasKey (normalizeDescription s.description)) (fun t n => rfl)]
    unfold sortSolutions
    rw [(sortByKey_perm solutionSortKey (dedupSolutions [] sols)).countP_eq]
    exact dedupSolutions_countP_of_mem _ [] sols ⟨s, hs, rfl⟩ rfl
  · intro r hr
    unfold fuseSolutions at hr
    obtain ⟨t, ht, m, hm⟩ := reassignFrom_mem hr
    have ht2 : t ∈ dedupSolutions [] sols :=
      (sortByKey_perm solutionSortKey (dedupSolutions [] sols)).mem_iff.mp ht
    exact ⟨t, dedupSolutions_subset [] sols t ht2, m, hm⟩
  · unfold fuseSolutions
    refine reassignFrom_pairwise ?_ ?_
    · intro s t n m h
      exact h
    · exact (sortByKey_sorted solutionSortKey _).imp (fun h => solutionSortKey_le_interp h)
  · unfold fuseSolutions
    rw [reassignFrom_map_order, reassignFrom_length]

/-- Witness for C3: two candidates whose descriptions differ only in
case and trailing whitespace collapse to one entry, the verified one
comes first, and orders are rewritten to 1, 2. -/
theorem C3_witness :
    (fuseSolutions
        [⟨"Restart EDI adapter", false, 2, 1⟩,
         ⟨"  restart edi ADAPTER ", true, 5, 2⟩,
         ⟨"Check DLQ", true, 1, 3⟩]).countP
      (hasKey (normalizeDescription "Restart EDI adapter")) = 1 ∧
    (fuseSolutions
        [⟨"Restart EDI adapter", false, 2, 1⟩,
         ⟨"  restart edi ADAPTER ", true, 5, 2⟩,
         ⟨"Check DLQ", true, 1, 3⟩]).map Solution.order =
      List.range' 1
        (fuseSolutions
          [⟨"Restart EDI adapter", false, 2, 1⟩,
           ⟨"  restart edi ADAPTER ", true, 5, 2⟩,
           ⟨"Check DLQ", true, 1, 3⟩]).length :=
  ⟨(C3_fusion_dedup_and_order _).1 ⟨"Restart EDI adapter", false, 2, 1⟩ (by simp),
    (C3_fusion_dedup_and_order _).2.2.2⟩

/-! ## Claim C4 -/

theorem removeFirst_countP {α : Type} (p : α → Bool) :
    ∀ l : List α, (∃ x ∈ l, p x = true) →
      (removeFirst p l).countP p = l.countP p - 1 := by
  intro l
  induction l with
  | nil => intro h; obtain ⟨x, hx, _⟩ := h; cases hx
  | cons x xs ih =>
    intro h
    simp only [removeFirst]
    by_cases hx : p x = true
    · rw [if_pos hx, List.countP_cons, hx]
      simp
    · rw [if_neg hx]
      have hxs : ∃ y ∈ xs, p y = true := by
        obtain ⟨y, hy, hpy⟩ := h
        rcases List.mem_cons.mp hy with rfl | hyx
        · exact absurd hpy hx
        · exact ⟨y, hyx, hpy⟩
      have hpos : 0 < xs.countP p := List.countP_pos_iff.mpr (by simpa using hxs)
      have hih := ih hxs
      rw [List.countP_cons, List.countP_cons]
      simp only [if_neg hx]
      omega

theorem mark_step_useful_existing {fb : SolutionFeedback} {step_order : Int}
    {step_description : String} {kb td rca : Option Int}
    (incident : Option String) (now : Int)
    (h : feedbackMatches step_description step_order kb td rca fb = true) :
    mark_step_useful [fb] step_order step_description kb td rca incident now =
      ([{ fb with
            usefulness_count := fb.usefulness_count + 1
            marked_at := now
            incident_description :=
              if final_incident_of incident ≠ "Unknown incident" then final_incident_of incident
              else fb.incident_description }],
        fb.usefulness_count + 1) := by
  simp only [mark_step_useful, List.find?_cons_of_pos _ h, updateFirst, if_pos h]

/-- C4: marking the same identity tuple n times starting from the empty
store yields a single row with usefulness_count n; unmarking a tuple
whose row has count 1 deletes the row (one fewer matching row, success
signalled); unmarking a tuple with no matching row returns the store
unchanged together with the not-found signal false instead of raising. -/
theorem C4_feedback_ledger (step_order : Int) (step_description : String)
    (kb td rca : Option Int) (incident : Option String) (now : Int) :
    (∀ n : Nat, 1 ≤ n →
      ∃ fb : SolutionFeedback,
        iterMark step_order step_description kb td rca incident now n = [fb] ∧
          fb.usefulness_count = n ∧
          feedbackMatches step_description step_order kb td rca fb = true) ∧
    (∀ (store : List SolutionFeedback) (fb : SolutionFeedback),
      store.find? (feedbackMatches step_description step_order kb td rca) = some fb →
      fb.usefulness_count = 1 →
      unmark_step_useful store step_order step_description kb td rca now =
        (removeFirst (feedbackMatches step_description step_order kb td rca) store, true) ∧
      (removeFirst (feedbackMatches step_description step_order kb td rca) store).countP
          (feedbackMatches step_description step_order kb td rca) =
        store.countP (feedbackMatches step_description step_order kb td rca) - 1) ∧
    (∀ store : List SolutionFeedback,
      store.find? (feedbackMatches step_description step_order kb td rca) = none →
      unmark_step_useful store step_order step_description kb td rca now = (store, false)) := by
  refine ⟨?_, ?_, ?_⟩
  · intro n hn
    induction n with
    | zero => exact absurd hn (by norm_num)
    | succ m ih =>
      by_cases hm : m = 0
      · subst hm
        refine ⟨{ incident_description := final_incident_of incident
                  solution_description := step_description
                  solution_order := step_order
                  knowledge_base_id := kb
                  training_data_id := td
                  rca_id := rca
                  usefulness_count := 1
                  marked_at := now }, rfl, rfl, ?_⟩
        simp [feedbackMatches]
      · obtain ⟨fb, hst, hcount, hmatch⟩ := ih (by omega)
        refine ⟨{ fb with
            usefulness_count := fb.usefulness_count + 1
            marked_at := now
            incident_description :=
              if final_incident_of incident ≠ "Unknown incident" then final_incident_of incident
              else fb.incident_description }, ?_, by simp [hcount], ?_⟩
        · show (mark_step_useful (iterMark step_order step_description kb td rca incident now m)
            step_order step_description kb td rca incident now).1 = _
          rw [hst, mark_step_useful_existing incident now hmatch]
        · exact hmatch
  · intro store fb hfind hcount
    constructor
    · simp only [unmark_step_useful, hfind]
      rw [if_neg (by rw [hcount]; exact lt_irrefl 1)]
    · exact removeFirst_countP _ store
        ⟨fb, List.mem_of_find?_eq_some hfind, List.find?_some hfind⟩
  · intro store hfind
    simp only [unmark_step_useful, hfind]

/-- Witness for C4: a concrete training-data-sourced step marked three
times accumulates one row with count 3; unmarking a count-1 row empties
the one-row store; unmarking against the empty store reports not found. -/
theorem C4_witness :
    (∃ fb : SolutionFeedback,
      iterMark 1 "Restart adapter" none (some 2) none (some ("EDI stuck")) 0 3 = [fb] ∧
        fb.usefulness_count = 3 ∧
        feedbackMatches "Restart adapter" 1 none (some 2) none fb = true) ∧
    unmark_step_useful
        [{ incident_description := "EDI stuck"
           solution_description := "Restart adapter"
           solution_order := 1
           knowledge_base_id := none
           training_data_id := some 2
           rca_id := none
           usefulness_count := 1
           marked_at := 0 }] 1 "Restart adapter" none (some 2) none 7 =
      ([], true) ∧
    unmark_step_useful [] 1 "Restart adapter" none (some 2) none 7 = ([], false) := by
  refine ⟨(C4_feedback_ledger 1 "Restart adapter" none (some 2) none (some ("EDI stuck")) 0).1
    3 (by norm_num), ?_, (C4_feedback_ledger 1 "Restart adapter" none (some 2) none
      (some ("EDI stuck")) 7).2.2 [] rfl⟩
  have h2 := (C4_feedback_ledger 1 "Restart adapter" none (some 2) none
      (some ("EDI stuck")) 7).2.1
    [{ incident_description := "EDI stuck"
       solution_description := "Restart adapter"
       solution_order := 1
       knowledge_base_id := none
       training_data_id := some 2
       rca_id := none
       usefulness_count := 1
       marked_at := 0 }]
    { incident_description := "EDI stuck"
      solution_description := "Restart adapter"
      solution_order := 1
      knowledge_base_id := none
      training_data_id := some 2
      rca_id := none
      usefulness_count := 1
      marked_at := 0 } (by rfl) rfl
  simpa using h2.1

/-! ## Claim C5 -/

/-- C5: zero or one container row reports no duplicates; with two or
more rows, a row differing from the first in status, vessel, origin or
destination makes the issue data_inconsistency; identical rows whose
head (newest, the rows arrive created_at-descending) and last (oldest)
timestamps are less than 5 seconds apart make it rapid_duplicate_insert
with the delta surfaced. -/
theorem C5_container_duplicates (rows : List ContainerRow) :
    (rows.length ≤ 1 → (detect_container_duplicates rows).has_duplicates = false) ∧
    (∀ first rest, rows = first :: rest → rest ≠ [] →
      ((∃ c ∈ rest, ¬(c.status = first.status ∧ c.vessel_id = first.vessel_id ∧
          c.origin_port = first.origin_port ∧ c.destination_port = first.destination_port)) →
        (detect_container_duplicates rows).has_duplicates = true ∧
        (detect_container_duplicates rows).issue_type = "data_inconsistency") ∧
      (∀ lastRow, rows.getLast? = some lastRow →
        (∀ c ∈ rest, c.status = first.status ∧ c.vessel_id = first.vessel_id ∧
          c.origin_port = first.origin_port ∧ c.destination_port = first.destination_port) →
        first.created_at - lastRow.created_at < 5 →
        (detect_container_duplicates rows).has_duplicates = true ∧
        (detect_container_duplicates rows).issue_type = "rapid_duplicate_insert" ∧
        (detect_container_duplicates rows).time_delta =
          some (first.created_at - lastRow.created_at))) := by
  constructor
  · intro hlen
    match rows, hlen with
    | [], _ => rfl
    | [c], _ => rfl
  · intro first rest hrows hne
    subst hrows
    match rest, hne with
    | r :: rs, _ =>
      constructor
      · intro hex
        obtain ⟨c, hc, hcne⟩ := hex
        have hall : ((r :: rs).all fun c =>
            c.status == first.status && c.vessel_id == first.vessel_id &&
              c.origin_port == first.origin_port &&
              c.destination_port == first.destination_port) = false := by
          refine List.all_eq_false.mpr ⟨c, hc, ?_⟩
          intro hcon
          refine hcne ?_
          simp only [Bool.and_eq_true, beq_iff_eq] at hcon
          tauto
        simp only [detect_container_duplicates, hall]
        exact ⟨rfl, rfl⟩
      · intro lastRow hlast hsame hdelta
        have hall : ((r :: rs).all fun c =>
            c.status == first.status && c.vessel_id == first.vessel_id &&
              c.origin_port == first.origin_port &&
              c.destination_port == first.destination_port) = true := by
          refine List.all_eq_true.mpr ?_
          intro c hc
          have := hsame c hc
          simp only [Bool.and_eq_true, beq_iff_eq]
          tauto
        have hgl : (first :: r :: rs).getLast (List.cons_ne_nil first (r :: rs)) = lastRow := by
          have := List.getLast?_eq_getLast (first :: r :: rs) (List.cons_ne_nil first (r :: rs))
          rw [this] at hlast
          exact Option.some.inj hlast
        simp only [detect_container_duplicates, hall, if_true, hgl]
        rw [if_pos hdelta]
        exact ⟨rfl, rfl, rfl⟩

/-- Witness for C5: two identical rows two seconds apart (newest first)
are a rapid duplicate insert with delta 2, as the claim instantiates. -/
theorem C5_witness :
    (detect_container_duplicates
        [⟨2, "IN_YARD", some 1, "CNSHA", "SGSIN"⟩,
         ⟨0, "IN_YARD", some 1, "CNSHA", "SGSIN"⟩]).has_duplicates = true ∧
    (detect_container_duplicates
        [⟨2, "IN_YARD", some 1, "CNSHA", "SGSIN"⟩,
         ⟨0, "IN_YARD", some 1, "CNSHA", "SGSIN"⟩]).issue_type = "rapid_duplicate_insert" ∧
    (detect_container_duplicates
        [⟨2, "IN_YARD", some 1, "CNSHA", "SGSIN"⟩,
         ⟨0, "IN_YARD", some 1, "CNSHA", "SGSIN"⟩]).time_delta = some 2 := by
  have h := (C5_container_duplicates
      [⟨2, "IN_YARD", some 1, "CNSHA", "SGSIN"⟩, ⟨0, "IN_YARD", some 1, "CNSHA", "SGSIN"⟩]).2
    ⟨2, "IN_YARD", some 1, "CNSHA", "SGSIN"⟩ [⟨0, "IN_YARD", some 1, "CNSHA", "SGSIN"⟩]
    rfl (by simp)
  have h2 := h.2 ⟨0, "IN_YARD", some 1, "CNSHA", "SGSIN"⟩ rfl
    (by intro c hc; simp at hc; simp [hc]) (by norm_num)
  have hdelta : (2 : ℚ) - 0 = 2 := by norm_num
  exact ⟨h2.1, h2.2.1, by rw [h2.2.2]; norm_num⟩

/-! ## Claim C6 -/

/-- C6: no advisory rows, or only rows with an end date, report no
conflict; exactly one active row (no end date) reports VESSEL_ERR_4 and
that row's id; two or more active rows report MULTIPLE_ACTIVE listing
every active id. -/
theorem C6_vessel_advice_conflict (advices : List VesselAdviceRow) :
    (advices = [] → (detect_vessel_advice_conflict advices).has_conflict = false) ∧
    ((∀ a ∈ advices, a.effective_end_datetime.isSome = true) →
      (detect_vessel_advice_conflict advices).has_conflict = false) ∧
    (∀ a, advices.filter (fun x => x.effective_end_datetime.isNone) = [a] →
      (detect_vessel_advice_conflict advices).has_conflict = true ∧
      (detect_vessel_advice_conflict advices).error_type = some ("VESSEL_ERR_4") ∧
      (detect_vessel_advice_conflict advices).active_advice_no = some a.vessel_advice_no) ∧
    (∀ a b rest, advices.filter (fun x => x.effective_end_datetime.isNone) = a :: b :: rest →
      (detect_vessel_advice_conflict advices).has_conflict = true ∧
      (detect_vessel_advice_conflict advices).error_type = some ("MULTIPLE_ACTIVE") ∧
      (detect_vessel_advice_conflict advices).active_ids =
        (a :: b :: rest).map (fun x => x.vessel_advice_no)) := by
  refine ⟨?_, ?_, ?_, ?_⟩
  · rintro rfl
    rfl
  · intro hall
    match advices, hall with
    | [], _ => rfl
    | a0 :: rest0, hall =>
      have hfilter : (a0 :: rest0).filter (fun x => x.effective_end_datetime.isNone) = [] := by
        refine List.filter_eq_nil_iff.mpr ?_
        intro x hx
        have := hall x hx
        simp [Option.isNone_iff_eq_none]
        intro hnone
        rw [hnone] at this
        simp at this
      simp only [detect_vessel_advice_conflict, hfilter]
  · intro a hfa
    match advices, hfa with
    | [], hfa => simp at hfa
    | a0 :: rest0, hfa =>
      simp only [detect_vessel_advice_conflict, hfa]
      norm_num
  · intro a b rest hfab
    match advices, hfab with
    | [], hfab => simp at hfab
    | a0 :: rest0, hfab =>
      simp only [detect_vessel_advice_conflict, hfab]
      norm_num

/-- Witness for C6: one active plus one expired advisory yields
VESSEL_ERR_4 carrying the active advisory's id, and two active
advisories yield MULTIPLE_ACTIVE with both ids. -/
theorem C6_witness :
    (detect_vessel_advice_conflict [⟨7, 100, none⟩, ⟨3, 50, some 90⟩]).error_type =
        some ("VESSEL_ERR_4") ∧
    (detect_vessel_advice_conflict [⟨7, 100, none⟩, ⟨3, 50, some 90⟩]).active_advice_no =
        some 7 ∧
    (detect_vessel_advice_conflict [⟨8, 100, none⟩, ⟨9, 50, none⟩]).error_type =
        some ("MULTIPLE_ACTIVE") ∧
    (detect_vessel_advice_conflict [⟨8, 100, none⟩, ⟨9, 50, none⟩]).active_ids = [8, 9] := by
  have h1 := (C6_vessel_advice_conflict [⟨7, 100, none⟩, ⟨3, 50, some 90⟩]).2.2.1
    ⟨7, 100, none⟩ (by rfl)
  have h2 := (C6_vessel_advice_conflict [⟨8, 100, none⟩, ⟨9, 50, none⟩]).2.2.2
    ⟨8, 100, none⟩ ⟨9, 50, none⟩ [] (by rfl)
  exact ⟨h1.2.1, h1.2.2, h2.2.1, h2.2.2⟩

/-! ## Claim C7 -/

/-- C7: every emitted cascade has at least two events, all with http
status at least 400, with consecutive gaps at most the window; the
final in-progress group at the end of the event list is never silently
dropped: whenever the filtered error events split into a front part and
a trailing within-window chain of 2+ events separated from the front by
a gap above the window, that trailing group is emitted, as the last
cascade; error events at t = 0, 3, 7, 25 seconds with the default
10-second window yield exactly one cascade holding exactly the first
three events; and with a fifth event at t = 30 the trailing pair at
t = 25, 30 — which only the end-of-list flush can emit — appears as a
second cascade. -/
theorem C7_api_event_cascade :
    (∀ (events : List APIEventRow) (window : ℚ),
      ∀ g ∈ detect_api_event_cascade events window,
        2 ≤ g.length ∧ (∀ e ∈ g, 400 ≤ e.http_status) ∧
          g.Chain' (fun a b => b.event_ts - a.event_ts ≤ window)) ∧
    (∀ (events : List APIEventRow) (window : ℚ) (front trailing : List APIEventRow),
      events.filter (fun e => 400 ≤ e.http_status) = front ++ trailing →
      2 ≤ trailing.length →
      trailing.Chain' (fun a b => b.event_ts - a.event_ts ≤ window) →
      (∀ a b, front.getLast? = some a → trailing.head? = some b →
        window < b.event_ts - a.event_ts) →
      ∃ gs, detect_api_event_cascade events window = gs ++ [trailing]) ∧
    detect_api_event_cascade
        [⟨1, 0, 500⟩, ⟨2, 3, 502⟩, ⟨3, 7, 500⟩, ⟨4, 25, 503⟩] default_cascade_window =
      [[⟨1, 0, 500⟩, ⟨2, 3, 502⟩, ⟨3, 7, 500⟩]] ∧
    detect_api_event_cascade
        [⟨1, 0, 500⟩, ⟨2, 3, 502⟩, ⟨3, 7, 500⟩, ⟨4, 25, 503⟩, ⟨5, 30, 500⟩]
        default_cascade_window =
      [[⟨1, 0, 500⟩, ⟨2, 3, 502⟩, ⟨3, 7, 500⟩], [⟨4, 25, 503⟩, ⟨5, 30, 500⟩]] := by
  refine ⟨?_, ?_, ?_, ?_⟩
  · intro events window g hg
    exact detect_api_event_cascade_groups events window g hg
  · intro events window front trailing hsplit hlen hchain hbreak
    exact detect_api_event_cascade_trailing events window front trailing
      hsplit hlen hchain hbreak
  · norm_num [detect_api_event_cascade, cascadeGo, List.filter, default_cascade_window]
  · norm_num [detect_api_event_cascade, cascadeGo, List.filter, default_cascade_window]

/-- Witness for C7: the soundness part applied to the t = 0, 3, 7, 25
run, and the trailing-flush part applied to the t = 0, 3, 7, 25, 30 run,
whose final pair of events is closed only by the end of the list. -/
theorem C7_witness :
    (2 ≤ ([⟨1, 0, 500⟩, ⟨2, 3, 502⟩, ⟨3, 7, 500⟩] : List APIEventRow).length ∧
      (∀ e ∈ ([⟨1, 0, 500⟩, ⟨2, 3, 502⟩, ⟨3, 7, 500⟩] : List APIEventRow),
        400 ≤ e.http_status)) ∧
    (∃ gs, detect_api_event_cascade
        [⟨1, 0, 500⟩, ⟨2, 3, 502⟩, ⟨3, 7, 500⟩, ⟨4, 25, 503⟩, ⟨5, 30, 500⟩]
        default_cascade_window =
      gs ++ [[⟨4, 25, 503⟩, ⟨5, 30, 500⟩]]) := by
  have h := C7_api_event_cascade.1
    [⟨1, 0, 500⟩, ⟨2, 3, 502⟩, ⟨3, 7, 500⟩, ⟨4, 25, 503⟩] default_cascade_window
    [⟨1, 0, 500⟩, ⟨2, 3, 502⟩, ⟨3, 7, 500⟩]
    (by rw [C7_api_event_cascade.2.2.1]; exact List.mem_singleton.mpr rfl)
  refine ⟨⟨h.1, h.2.1⟩, ?_⟩
  refine C7_api_event_cascade.2.1
    [⟨1, 0, 500⟩, ⟨2, 3, 502⟩, ⟨3, 7, 500⟩, ⟨4, 25, 503⟩, ⟨5, 30, 500⟩]
    default_cascade_window
    [⟨1, 0, 500⟩, ⟨2, 3, 502⟩, ⟨3, 7, 500⟩]
    [⟨4, 25, 503⟩, ⟨5, 30, 500⟩]
    (by norm_num [List.filter]) (by norm_num) ?_ ?_
  · refine List.chain'_cons.mpr ⟨by norm_num [default_cascade_window], List.chain'_singleton _⟩
  · intro a b ha hb
    simp only [List.getLast?_cons_cons, List.getLast?_singleton] at ha
    simp only [List.head?_cons] at hb
    obtain rfl := Option.some.inj ha
    obtain rfl := Option.some.inj hb
    norm_num [default_cascade_window]

/-! ## Claim C8 -/

theorem find?_eq_of_first {α : Type} (p : α → Bool) :
    ∀ (l : List α) (i : Nat) (h : i < l.length),
      p (l.get ⟨i, h⟩) = true →
      (∀ j (hj : j < i), p (l.get ⟨j, lt_trans hj h⟩) = false) →
      l.find? p = some (l.get ⟨i, h⟩) := by
  intro l
  induction l with
  | nil => intro i h; exact absurd h (by simp)
  | cons x xs ih =>
    intro i h hp hprev
    cases i with
    | zero => exact List.find?_cons_of_pos _ hp
    | succ i' =>
      have hx : p x = false := hprev 0 (Nat.succ_pos i')
      rw [List.find?_cons_of_neg _ (by simp [hx])]
      exact ih i' (Nat.lt_of_succ_lt_succ h) hp
        (fun j hj => hprev (j + 1) (Nat.succ_lt_succ hj))

/-- C8: extract_error_type is a function of the text alone (determinism
is immediate from the embedding); when pattern number i matches the
lower-cased text and no earlier pattern does, the tag of pattern i is
returned — in particular for a text matching two rules the earlier
rule's tag wins; when no pattern matches, the first two word tokens are
joined with an underscore; when no tokens exist the sentinel
unknown_error is returned. The closed conjuncts: a text matching both
the dlq rule and the later timeout rule gets dlq_spike; a pattern-free
text gets its first two tokens; a text with no word characters gets
unknown_error. -/
theorem C8_error_fingerprint :
    (∀ (text : String) (i : Nat) (hi : i < errorPatterns.length),
      reSearch (errorPatterns.get ⟨i, hi⟩).1 (lower text.toList) = true →
      (∀ j (hj : j < i),
        reSearch (errorPatterns.get ⟨j, lt_trans hj hi⟩).1 (lower text.toList) = false) →
      extract_error_type text = (errorPatterns.get ⟨i, hi⟩).2) ∧
    (∀ text : String,
      (∀ p ∈ errorPatterns, reSearch p.1 (lower text.toList) = false) →
      (splitRuns isWordChar (lower text.toList) = [] →
        extract_error_type text = "unknown_error") ∧
      (∀ w ws, splitRuns isWordChar (lower text.toList) = w :: ws →
        extract_error_type text = String.mk (joinUnderscore ((w :: ws).take 2)))) ∧
    extract_error_type "dlq messages timeout" = "dlq_spike" ∧
    extract_error_type "Foo bar baz" = "foo_bar" ∧
    extract_error_type "???" = "unknown_error" := by
  refine ⟨?_, ?_, rfl, rfl, rfl⟩
  · intro text i hi hmatch hprev
    simp only [extract_error_type]
    rw [find?_eq_of_first (fun p => reSearch p.1 (lower text.toList)) errorPatterns i hi
      hmatch hprev]
  · intro text hnone
    have hfind : errorPatterns.find? (fun p => reSearch p.1 (lower text.toList)) = none := by
      refine List.find?_eq_none.mpr ?_
      intro p hp hcon
      have h2 : reSearch p.1 (lower text.toList) = true := hcon
      rw [hnone p hp] at h2
      cases h2
    constructor
    · intro hruns
      simp only [extract_error_type, hfind, hruns]
    · intro w ws hruns
      simp only [extract_error_type, hfind, hruns]

/-- Witness for C8: dlq messages timeout matches rule 9 (dlq_spike) and
rule 14 (timeout); no rule before 9 matches, so the earlier tag is
returned. -/
theorem C8_witness :
    extract_error_type "dlq messages timeout" = (errorPatterns.get ⟨9, by decide⟩).2 :=
  C8_error_fingerprint.1 "dlq messages timeout" 9 (by decide) (by decide) (by decide)

/-! ## Claim C9 -/

/-- A concrete container-duplication finding for the C9 inputs. -/
def dupC9 : DupAnalysis := ⟨true, 2, true, "rapid_duplicate_insert", some 2⟩

/-- A concrete vessel-advisory-conflict finding for the C9 inputs. -/
def vesselC9 : AdviceConflict := ⟨true, some ("VESSEL_ERR_4"), some 7, [7], none⟩

/-- C9 counterexample: with all three operational anomalies present the
hypothesis list does not start with the 0.98 vessel advisory conflict;
the EDI loop runs last and inserts at position 0, so the head is the
0.90 EDI hypothesis. -/
theorem C9_counterexample :
    (analyze_root_cause_hypotheses true [] [dupC9] [vesselC9]
        [some ("segment missing")]).head? = some edi_hypothesis ∧
      edi_hypothesis.confidence = 90/100 ∧
      ¬ (analyze_root_cause_hypotheses true [] [dupC9] [vesselC9]
          [some ("segment missing")]).head? = some vessel_hypothesis := by
  refine ⟨rfl, by norm_num [edi_hypothesis], ?_⟩
  intro h
  have h1 : (analyze_root_cause_hypotheses true [] [dupC9] [vesselC9]
      [some ("segment missing")]).head? = some edi_hypothesis := rfl
  rw [h1] at h
  have h2 := Option.some.inj h
  have h3 : (90 : ℚ)/100 = 98/100 := congrArg Hypothesis.confidence h2
  norm_num at h3

/-- C9 (amended): every qualifying operational finding inserts its
hypothesis at position 0, after the similarity (0.85) and log-derived
hypotheses are built, so all operational hypotheses sit ahead of them;
but the insertion order is container (0.95), then vessel (0.98), then
EDI (0.90), so the front of the list is the EDI hypotheses, then the
vessel ones, then the container ones — with all three anomalies present
the list starts with the 0.90 EDI hypothesis, not the 0.98 vessel one. -/
theorem C9_amended (has_similar : Bool) (log_hyps : List Hypothesis)
    (containers : List DupAnalysis) (vessels : List AdviceConflict)
    (edis : List (Option String)) :
    analyze_root_cause_hypotheses has_similar log_hyps containers vessels edis =
      List.replicate (edis.countP (fun e => e.isSome)) edi_hypothesis ++
        List.replicate
          (vessels.countP (fun v => v.has_conflict && v.error_type == some ("VESSEL_ERR_4")))
          vessel_hypothesis ++
        List.replicate (containers.countP (fun c => c.has_duplicates)) container_hypothesis ++
        base_hypotheses has_similar log_hyps ∧
    (edis ≠ [] → (∀ e ∈ edis, e.isSome = true) →
      (analyze_root_cause_hypotheses has_similar log_hyps containers vessels edis).head? =
        some edi_hypothesis) := by
  refine ⟨add_operational_hypotheses_eq containers vessels edis _, ?_⟩
  intro hne hall
  rw [show analyze_root_cause_hypotheses has_similar log_hyps containers vessels edis =
    _ from add_operational_hypotheses_eq containers vessels edis _]
  have hpos : 0 < edis.countP (fun e => e.isSome) := by
    refine List.countP_pos_iff.mpr ?_
    match edis, hne with
    | e :: es, _ => exact ⟨e, List.mem_cons_self e es, by simpa using hall e (List.mem_cons_self e es)⟩
  obtain ⟨m, hm⟩ : ∃ m, edis.countP (fun e => e.isSome) = m + 1 :=
    ⟨edis.countP (fun e => e.isSome) - 1, by omega⟩
  rw [hm, List.replicate_succ]
  rfl

/-- Witness for C9_amended with one finding of each kind: the head of
the hypothesis list is the EDI hypothesis. -/
theorem C9_amended_witness :
    (analyze_root_cause_hypotheses true [] [dupC9] [vesselC9]
        [some ("segment missing")]).head? = some edi_hypothesis :=
  (C9_amended true [] [dupC9] [vesselC9] [some ("segment missing")]).2
    (by simp) (by simp)

end Portnet
